import Mathlib

/-!
Verification of the pyesql annotated-SQL parser (src/pyesql/parser.py).

The embedding models lines as lists of characters.  `splitlines` mirrors
Python's `str.splitlines` on the usual line terminators.  The regular
expressions `WHITESPACE_RE`, `NAME_RE` and `DOC_RE` of the source are
embedded as the executable matchers `isBlankL`, `matchName` and `matchDoc`;
all three regexes are anchored and built only from literal runs and greedy
character-class stars whose classes are disjoint from the literal that
follows, so maximal-munch (`dropWhile` / `takeWhile`) matching is exact.

The stateful `LineParser` class is modelled by an explicit state record,
and each `while` loop of the source by a structurally recursive function on
the list of remaining lines, so that every definition evaluates inside the
kernel.  The top-level loop of `parse_queries` is given explicit fuel that
provably suffices (`parseLoop_fuel_congr`).
-/

/-- Python's `\s` on the ASCII range (the source never feeds the parser
non-ASCII whitespace-relevant characters in any claim considered here). -/
def pyIsSpace (c : Char) : Bool :=
  c == ' ' || c == '\t' || c == '\n' || c == '\r' || c == '\x0b' || c == '\x0c'

/-- `WHITESPACE_RE = ^\s*$` : the whole line is whitespace. -/
def isBlankL (l : List Char) : Bool := l.all pyIsSpace

/-- A character of the identifier class `[a-zA-Z0-9_]`. -/
def isIdentChar (c : Char) : Bool := c.isAlphanum || c == '_'

/-- Worker for `splitlines`: accumulates the current line in reverse. -/
def splitLinesGo : List Char → List Char → List (List Char)
  | [], acc => if acc.isEmpty then [] else [acc.reverse]
  | '\r' :: '\n' :: rest, acc => acc.reverse :: splitLinesGo rest []
  | '\r' :: rest, acc => acc.reverse :: splitLinesGo rest []
  | '\n' :: rest, acc => acc.reverse :: splitLinesGo rest []
  | c :: rest, acc => splitLinesGo rest (c :: acc)

/-- Python `source.splitlines()` (for the terminators `\n`, `\r`, `\r\n`):
no trailing empty line for a source ending in a terminator. -/
def splitlines (s : String) : List (List Char) := splitLinesGo s.toList []

/-- Python `'\n'.join(lines)`. -/
def joinLines (ls : List (List Char)) : String := (List.intercalate ['\n'] ls).asString

/-- If `pat` is a prefix of the input, return the remainder. -/
def expectChars : List Char → List Char → Option (List Char)
  | [], l => some l
  | _ :: _, [] => none
  | c :: cs, d :: ds => if d = c then expectChars cs ds else none

/-- `NAME_RE = ^\s*--\s*name:\s*([a-zA-Z0-9_]+!?)\s*$`; returns the
capture group (identifier, with its optional trailing `!`). -/
def matchName (l : List Char) : Option (List Char) :=
  match expectChars ['-', '-'] (l.dropWhile pyIsSpace) with
  | none => none
  | some r2 =>
    match expectChars ['n', 'a', 'm', 'e', ':'] (r2.dropWhile pyIsSpace) with
    | none => none
    | some r4 =>
      let r5 := r4.dropWhile pyIsSpace
      let ident := r5.takeWhile isIdentChar
      let r6 := r5.dropWhile isIdentChar
      if ident.isEmpty then none
      else
        match expectChars ['!'] r6 with
        | some r7 => if isBlankL r7 then some (ident ++ ['!']) else none
        | none => if isBlankL r6 then some ident else none

/-- `DOC_RE = ^\s*--\s*` used both as a test and, via `re.sub(DOC_RE, '', line)`,
as a stripper: returns the line with the whole matched prefix removed. -/
def matchDoc (l : List Char) : Option (List Char) :=
  match expectChars ['-', '-'] (l.dropWhile pyIsSpace) with
  | none => none
  | some r => some (r.dropWhile pyIsSpace)

/-- Modelled from the spec: claim C2's stripping rule, namely remove exactly
the leading comment marker `--` and at most one following whitespace
character (stated for comparison with the source's `matchDoc` stripping). -/
def specStripDocLine : List Char → List Char
  | '-' :: '-' :: c :: rest => if pyIsSpace c then rest else c :: rest
  | '-' :: '-' :: [] => []
  | l => l

/-- The single error kind of the source, `ParseError`.  The three raise
sites of `parse_query` are kept apart structurally; `ParseError.render`
reproduces the exact formatted message of each site. -/
inductive ParseError where
  | expectingName (line : Nat)
  | expectingDocOrBody (line : Nat) (name : String)
  | expectingBody (line : Nat) (name : String)
deriving DecidableEq

/-- The formatted message of each raise site of the source. -/
def ParseError.render : ParseError → String
  | .expectingName n => toString n ++ ": Expecting '-- name: <query-name>'"
  | .expectingDocOrBody n nm =>
      toString n ++ ": Expecting documentation or query body for query " ++ nm
  | .expectingBody n nm =>
      toString n ++ ": Expecting query body for query " ++ nm

/-- The line number carried by an error. -/
def ParseError.lineOf : ParseError → Nat
  | .expectingName n => n
  | .expectingDocOrBody n _ => n
  | .expectingBody n _ => n

/-- `Query = namedtuple('Query', ['name', 'statement', 'doc', 'body'])`. -/
structure Query where
  name : String
  statement : Bool
  doc : String
  body : String
deriving DecidableEq

/-- The `LineParser` state: `lines` is the not-yet-consumed tail of the
line iterator, `line` the current line (`none` at end of input),
`linecount` the 1-based count of successfully consumed lines. -/
structure LineParser where
  lines : List (List Char)
  line : Option (List Char)
  linecount : Nat
deriving DecidableEq

/-- `LineParser.next`: fetch the next line; at an exhausted iterator the
current line becomes `None` and the counter is NOT incremented. -/
def LineParser.next (p : LineParser) : LineParser :=
  match p.lines with
  | [] => { p with line := none }
  | l :: ls => { lines := ls, line := some l, linecount := p.linecount + 1 }

/-- `LineParser.__init__`: store the line iterator, then one `next()`. -/
def LineParser.init (source : String) : LineParser :=
  LineParser.next { lines := splitlines source, line := none, linecount := 0 }

/-- `LineParser.eof`. -/
def LineParser.eof (p : LineParser) : Bool := p.line.isNone

/-- Worker for `skip_whitespace`: state is (remaining lines, current line
`c`, linecount `n`); one loop iteration per call, unrolled on the shape of
the remaining lines so that recursion is structural. -/
def skipAux : List (List Char) → List Char → Nat → LineParser
  | [], c, n =>
    if isBlankL c then { lines := [], line := none, linecount := n }
    else { lines := [], line := some c, linecount := n }
  | c' :: ls', c, n =>
    if isBlankL c then skipAux ls' c' (n + 1)
    else { lines := c' :: ls', line := some c, linecount := n }

/-- `LineParser.skip_whitespace`: `while not eof and WHITESPACE_RE.match(line): next()`. -/
def LineParser.skip_whitespace (p : LineParser) : LineParser :=
  match p.line with
  | none => p
  | some c => skipAux p.lines c p.linecount

/-- Worker for the docstring loop of `parse_query`: collects the
`re.sub(DOC_RE, '', line)` of each successive `DOC_RE`-matching line. -/
def docAux : List (List Char) → List Char → Nat → List (List Char) × LineParser
  | [], c, n =>
    match matchDoc c with
    | none => ([], { lines := [], line := some c, linecount := n })
    | some d => ([d], { lines := [], line := none, linecount := n })
  | c' :: ls', c, n =>
    match matchDoc c with
    | none => ([], { lines := c' :: ls', line := some c, linecount := n })
    | some d =>
      let r := docAux ls' c' (n + 1)
      (d :: r.1, r.2)

/-- The docstring loop: `while not eof and DOC_RE.match(line): append; next()`. -/
def parseDoc (p : LineParser) : List (List Char) × LineParser :=
  match p.line with
  | none => ([], p)
  | some c => docAux p.lines c p.linecount

/-- Worker for the body loop of `parse_query`: collects raw lines until
end of input or a `NAME_RE`-matching line. -/
def bodyAux : List (List Char) → List Char → Nat → List (List Char) × LineParser
  | [], c, n =>
    if (matchName c).isSome then ([], { lines := [], line := some c, linecount := n })
    else ([c], { lines := [], line := none, linecount := n })
  | c' :: ls', c, n =>
    if (matchName c).isSome then ([], { lines := c' :: ls', line := some c, linecount := n })
    else
      let r := bodyAux ls' c' (n + 1)
      (c :: r.1, r.2)

/-- The body loop: `while not eof and not NAME_RE.match(line): append; next()`. -/
def parseBody (p : LineParser) : List (List Char) × LineParser :=
  match p.line with
  | none => ([], p)
  | some c => bodyAux p.lines c p.linecount

/-- `parse_query(parser)`: recognize one query block, returning the
`Query` and the advanced parser state, or the `ParseError` raised. -/
def parse_query (p0 : LineParser) : Except ParseError (Query × LineParser) :=
  let p := p0.skip_whitespace
  match p.line with
  | none => .error (.expectingName p.linecount)
  | some l =>
    match matchName l with
    | none => .error (.expectingName p.linecount)
    | some g =>
      let statement := decide (g.getLast? = some '!')
      let name := if statement then g.dropLast else g
      let p1 := p.next.skip_whitespace
      match p1.line with
      | none => .error (.expectingDocOrBody p1.linecount name.asString)
      | some _ =>
        let dr := parseDoc p1
        let p3 := dr.2.skip_whitespace
        match p3.line with
        | none => .error (.expectingBody p3.linecount name.asString)
        | some bl =>
          if (matchName bl).isSome then .error (.expectingBody p3.linecount name.asString)
          else
            let br := parseBody p3
            .ok ({ name := name.asString, statement := statement,
                   doc := joinLines dr.1, body := joinLines br.1 }, br.2)

/-- Python dict assignment `queries[name] = query`: replace in place if the
key is present (keeping its position), else append. -/
def upsert : List (String × Query) → String → Query → List (String × Query)
  | [], k, v => [(k, v)]
  | (k', v') :: rest, k, v =>
    if k' = k then (k', v) :: rest else (k', v') :: upsert rest k v

/-- The `while not parser.eof()` loop of `parse_queries`, with fuel.
`parseLoop_fuel_congr` below shows the result does not depend on the fuel
once it exceeds the measure of the state, so the fuel chosen in
`parse_queries` makes this an exact model of the unbounded loop. -/
def parseLoop : Nat → LineParser → List (String × Query) → Except ParseError (List (String × Query))
  | 0, _, acc => .ok acc
  | fuel + 1, p, acc =>
    match p.line with
    | none => .ok acc
    | some _ =>
      match parse_query p with
      | .error e => .error e
      | .ok (q, p') => parseLoop fuel p'.skip_whitespace (upsert acc q.name q)

/-- `parse_queries(source)`: the result mapping is an insertion-ordered
association list, as a Python dict is. -/
def parse_queries (source : String) : Except ParseError (List (String × Query)) :=
  let p := LineParser.init source
  parseLoop (p.lines.length + 2) p []

/-- Termination measure of the top-level loop: remaining lines, plus one
when a current line is live. -/
def measureLP (p : LineParser) : Nat :=
  p.lines.length + (if p.line.isSome then 1 else 0)

instance {ε α : Type} [DecidableEq ε] [DecidableEq α] : DecidableEq (Except ε α) := by
  intro a b
  cases a <;> cases b
  case error.error e f => exact decidable_of_iff (e = f) (by simp)
  case ok.ok x y => exact decidable_of_iff (x = y) (by simp)
  all_goals exact isFalse (by intro h; cases h)

/-! ### Helper lemmas about the matchers -/

theorem expectChars_eq_some {pat l r : List Char} (h : expectChars pat l = some r) :
    l = pat ++ r := by
  induction pat generalizing l with
  | nil => simp [expectChars] at h; simp [h]
  | cons c cs ih =>
    cases l with
    | nil => simp [expectChars] at h
    | cons d ds =>
      by_cases hd : d = c
      · subst hd
        simp only [expectChars, if_pos rfl] at h
        simpa using ih h
      · simp [expectChars, hd] at h

theorem dropWhile_head_false {p : α → Bool} {l : List α} {c : α} {rs : List α}
    (h : l.dropWhile p = c :: rs) : p c = false := by
  have h1 := List.head_dropWhile_not p l (by simp [h])
  have h2 : (l.dropWhile p).head (by simp [h]) = c := by simp [h]
  rwa [h2] at h1

theorem isBlankL_takeWhile (l : List Char) :
    isBlankL (l.takeWhile pyIsSpace) = true := by
  simp [isBlankL]

theorem matchDoc_some {l r : List Char} (h : matchDoc l = some r) :
    ∃ w1 w2, isBlankL w1 = true ∧ isBlankL w2 = true ∧
      l = w1 ++ ['-', '-'] ++ w2 ++ r ∧
      ∀ c rs, r = c :: rs → pyIsSpace c = false := by
  unfold matchDoc at h
  split at h
  · cases h
  · rename_i r2 h2
    obtain rfl : r2.dropWhile pyIsSpace = r := by simpa using h
    refine ⟨l.takeWhile pyIsSpace, r2.takeWhile pyIsSpace,
      isBlankL_takeWhile l, isBlankL_takeWhile r2, ?_, ?_⟩
    · have key : l.takeWhile pyIsSpace ++ (['-', '-'] ++
          (r2.takeWhile pyIsSpace ++ r2.dropWhile pyIsSpace)) = l := by
        rw [List.takeWhile_append_dropWhile pyIsSpace r2, ← expectChars_eq_some h2,
          List.takeWhile_append_dropWhile pyIsSpace l]
      conv_lhs => rw [← key]
      simp [List.append_assoc]
    · intro c rs hr
      exact dropWhile_head_false hr

theorem matchName_some {l g : List Char} (h : matchName l = some g) :
    ∃ w1 w2 w3 w4 id bang,
      l = w1 ++ ['-', '-'] ++ w2 ++ ['n', 'a', 'm', 'e', ':'] ++ w3 ++ id ++ bang ++ w4 ∧
      isBlankL w1 = true ∧ isBlankL w2 = true ∧ isBlankL w3 = true ∧ isBlankL w4 = true ∧
      id ≠ [] ∧ id.all isIdentChar = true ∧ (bang = [] ∨ bang = ['!']) ∧ g = id ++ bang := by
  unfold matchName at h
  split at h
  · cases h
  · rename_i r2 h2
    split at h
    · cases h
    · rename_i r4 h4
      simp only [] at h
      by_cases hid : ((r4.dropWhile pyIsSpace).takeWhile isIdentChar).isEmpty
      · rw [if_pos hid] at h; cases h
      · rw [if_neg hid] at h
        have hne : (r4.dropWhile pyIsSpace).takeWhile isIdentChar ≠ [] := by
          intro hcon
          exact hid (by simp [hcon])
        have hall : ((r4.dropWhile pyIsSpace).takeWhile isIdentChar).all isIdentChar = true :=
          List.all_takeWhile
        have hw1 := isBlankL_takeWhile l
        have hw2 := isBlankL_takeWhile r2
        have hw3 := isBlankL_takeWhile r4
        split at h
        · rename_i r7 h6
          split at h
          · rename_i hb
            obtain rfl : (r4.dropWhile pyIsSpace).takeWhile isIdentChar ++ ['!'] = g := by
              simpa using h
            refine ⟨l.takeWhile pyIsSpace, r2.takeWhile pyIsSpace, r4.takeWhile pyIsSpace, r7,
              (r4.dropWhile pyIsSpace).takeWhile isIdentChar, ['!'],
              ?_, hw1, hw2, hw3, hb, hne, hall, Or.inr rfl, rfl⟩
            have key : l.takeWhile pyIsSpace ++ (['-', '-'] ++ (r2.takeWhile pyIsSpace ++
                (['n', 'a', 'm', 'e', ':'] ++ (r4.takeWhile pyIsSpace ++
                  ((r4.dropWhile pyIsSpace).takeWhile isIdentChar ++
                    (['!'] ++ r7)))))) = l := by
              rw [← expectChars_eq_some h6,
                List.takeWhile_append_dropWhile isIdentChar (r4.dropWhile pyIsSpace),
                List.takeWhile_append_dropWhile pyIsSpace r4, ← expectChars_eq_some h4,
                List.takeWhile_append_dropWhile pyIsSpace r2, ← expectChars_eq_some h2,
                List.takeWhile_append_dropWhile pyIsSpace l]
            conv_lhs => rw [← key]
            simp [List.append_assoc]
          · cases h
        · rename_i h6
          split at h
          · rename_i hb
            obtain rfl : (r4.dropWhile pyIsSpace).takeWhile isIdentChar = g := by
              simpa using h
            refine ⟨l.takeWhile pyIsSpace, r2.takeWhile pyIsSpace, r4.takeWhile pyIsSpace,
              (r4.dropWhile pyIsSpace).dropWhile isIdentChar,
              (r4.dropWhile pyIsSpace).takeWhile isIdentChar, [],
              ?_, hw1, hw2, hw3, hb, hne, hall, Or.inl rfl, by simp⟩
            have key : l.takeWhile pyIsSpace ++ (['-', '-'] ++ (r2.takeWhile pyIsSpace ++
                (['n', 'a', 'm', 'e', ':'] ++ (r4.takeWhile pyIsSpace ++
                  ((r4.dropWhile pyIsSpace).takeWhile isIdentChar ++
                    (r4.dropWhile pyIsSpace).dropWhile isIdentChar))))) = l := by
              rw [List.takeWhile_append_dropWhile isIdentChar (r4.dropWhile pyIsSpace),
                List.takeWhile_append_dropWhile pyIsSpace r4, ← expectChars_eq_some h4,
                List.takeWhile_append_dropWhile pyIsSpace r2, ← expectChars_eq_some h2,
                List.takeWhile_append_dropWhile pyIsSpace l]
            conv_lhs => rw [← key]
            simp [List.append_assoc]
          · cases h

theorem matchName_isSome_matchDoc {l : List Char} (h : (matchName l).isSome = true) :
    (matchDoc l).isSome = true := by
  unfold matchName at h
  unfold matchDoc
  split at h
  · simp at h
  · simp

/-! ### Lemmas about the cursor operations -/

theorem next_count_lines (p : LineParser) :
    p.next.linecount + p.next.lines.length = p.linecount + p.lines.length := by
  cases hl : p.lines with
  | nil => simp [LineParser.next, hl]
  | cons a as => simp [LineParser.next, hl]; omega

theorem next_count_ge (p : LineParser) : p.linecount ≤ p.next.linecount := by
  cases hl : p.lines <;> simp [LineParser.next, hl]

theorem next_measure_lt (p : LineParser) (h : p.line.isSome = true) :
    measureLP p.next < measureLP p := by
  cases hl : p.lines <;> simp [LineParser.next, measureLP, hl, h]

theorem skipAux_count_lines : ∀ (ls : List (List Char)) (c : List Char) (n : Nat),
    (skipAux ls c n).linecount + (skipAux ls c n).lines.length = n + ls.length := by
  intro ls
  induction ls with
  | nil => intro c n; by_cases h : isBlankL c <;> simp [skipAux, h]
  | cons c' ls' ih =>
    intro c n
    by_cases h : isBlankL c
    · simp only [skipAux, h, if_pos]
      rw [ih c' (n + 1)]
      simp; omega
    · simp [skipAux, h]

theorem skipAux_count_ge : ∀ (ls : List (List Char)) (c : List Char) (n : Nat),
    n ≤ (skipAux ls c n).linecount := by
  intro ls
  induction ls with
  | nil => intro c n; by_cases h : isBlankL c <;> simp [skipAux, h]
  | cons c' ls' ih =>
    intro c n
    by_cases h : isBlankL c
    · simp only [skipAux, h, if_pos]
      exact le_trans (Nat.le_succ n) (ih c' (n + 1))
    · simp [skipAux, h]

theorem skipAux_measure_le : ∀ (ls : List (List Char)) (c : List Char) (n : Nat),
    measureLP (skipAux ls c n) ≤ ls.length + 1 := by
  intro ls
  induction ls with
  | nil => intro c n; by_cases h : isBlankL c <;> simp [skipAux, h, measureLP]
  | cons c' ls' ih =>
    intro c n
    by_cases h : isBlankL c
    · simp only [skipAux, h, if_pos]
      exact le_trans (ih c' (n + 1)) (by simp)
    · simp [skipAux, h, measureLP]

theorem skipAux_line_not_blank : ∀ (ls : List (List Char)) (c : List Char) (n : Nat)
    (c' : List Char), (skipAux ls c n).line = some c' → isBlankL c' = false := by
  intro ls
  induction ls with
  | nil =>
    intro c n c' hline
    by_cases h : isBlankL c
    · simp [skipAux, h] at hline
    · simp [skipAux, h] at hline
      simpa [← hline] using h
  | cons c'' ls' ih =>
    intro c n c' hline
    by_cases h : isBlankL c
    · simp only [skipAux, h, if_pos] at hline
      exact ih c'' (n + 1) c' hline
    · simp [skipAux, h] at hline
      simpa [← hline] using h

theorem skip_whitespace_count_lines (p : LineParser) :
    (p.skip_whitespace).linecount + (p.skip_whitespace).lines.length =
      p.linecount + p.lines.length := by
  cases hl : p.line with
  | none => simp [LineParser.skip_whitespace, hl]
  | some c => simp [LineParser.skip_whitespace, hl, skipAux_count_lines]

theorem skip_whitespace_count_ge (p : LineParser) :
    p.linecount ≤ (p.skip_whitespace).linecount := by
  cases hl : p.line with
  | none => simp [LineParser.skip_whitespace, hl]
  | some c => simp [LineParser.skip_whitespace, hl, skipAux_count_ge]

theorem skip_whitespace_measure_le (p : LineParser) :
    measureLP p.skip_whitespace ≤ measureLP p := by
  cases hl : p.line with
  | none => simp [LineParser.skip_whitespace, hl]
  | some c =>
    simp only [LineParser.skip_whitespace, hl]
    calc measureLP (skipAux p.lines c p.linecount) ≤ p.lines.length + 1 :=
          skipAux_measure_le p.lines c p.linecount
      _ ≤ measureLP p := by simp [measureLP, hl]

theorem skip_whitespace_line_not_blank (p : LineParser) (c' : List Char)
    (h : (p.skip_whitespace).line = some c') : isBlankL c' = false := by
  cases hl : p.line with
  | none => rw [LineParser.skip_whitespace, hl] at h; rw [hl] at h; cases h
  | some c =>
    rw [LineParser.skip_whitespace, hl] at h
    exact skipAux_line_not_blank p.lines c p.linecount c' h

theorem docAux_count_lines : ∀ (ls : List (List Char)) (c : List Char) (n : Nat),
    (docAux ls c n).2.linecount + (docAux ls c n).2.lines.length = n + ls.length := by
  intro ls
  induction ls with
  | nil => intro c n; cases h : matchDoc c <;> simp [docAux, h]
  | cons c' ls' ih =>
    intro c n
    cases h : matchDoc c with
    | none => simp [docAux, h]
    | some d =>
      simp only [docAux, h]
      rw [ih c' (n + 1)]
      simp; omega

theorem docAux_count_ge : ∀ (ls : List (List Char)) (c : List Char) (n : Nat),
    n ≤ (docAux ls c n).2.linecount := by
  intro ls
  induction ls with
  | nil => intro c n; cases h : matchDoc c <;> simp [docAux, h]
  | cons c' ls' ih =>
    intro c n
    cases h : matchDoc c with
    | none => simp [docAux, h]
    | some d =>
      simp only [docAux, h]
      exact le_trans (Nat.le_succ n) (ih c' (n + 1))

theorem docAux_measure_le : ∀ (ls : List (List Char)) (c : List Char) (n : Nat),
    measureLP (docAux ls c n).2 ≤ ls.length + 1 := by
  intro ls
  induction ls with
  | nil => intro c n; cases h : matchDoc c <;> simp [docAux, h, measureLP]
  | cons c' ls' ih =>
    intro c n
    cases h : matchDoc c with
    | none => simp [docAux, h, measureLP]
    | some d =>
      simp only [docAux, h]
      exact le_trans (ih c' (n + 1)) (by simp)

theorem parseDoc_count_lines (p : LineParser) :
    (parseDoc p).2.linecount + (parseDoc p).2.lines.length = p.linecount + p.lines.length := by
  cases hl : p.line with
  | none => simp [parseDoc, hl]
  | some c => simp [parseDoc, hl, docAux_count_lines]

theorem parseDoc_count_ge (p : LineParser) : p.linecount ≤ (parseDoc p).2.linecount := by
  cases hl : p.line with
  | none => simp [parseDoc, hl]
  | some c => simp [parseDoc, hl, docAux_count_ge]

theorem parseDoc_measure_le (p : LineParser) : measureLP (parseDoc p).2 ≤ measureLP p := by
  cases hl : p.line with
  | none => simp [parseDoc, hl]
  | some c =>
    simp only [parseDoc, hl]
    calc measureLP (docAux p.lines c p.linecount).2 ≤ p.lines.length + 1 :=
          docAux_measure_le p.lines c p.linecount
      _ ≤ measureLP p := by simp [measureLP, hl]

theorem bodyAux_count_lines : ∀ (ls : List (List Char)) (c : List Char) (n : Nat),
    (bodyAux ls c n).2.linecount + (bodyAux ls c n).2.lines.length = n + ls.length := by
  intro ls
  induction ls with
  | nil => intro c n; by_cases h : (matchName c).isSome <;> simp [bodyAux, h]
  | cons c' ls' ih =>
    intro c n
    by_cases h : (matchName c).isSome
    · simp [bodyAux, h]
    · simp only [bodyAux, h, Bool.false_eq_true, if_false]
      rw [ih c' (n + 1)]
      simp; omega

theorem bodyAux_count_ge : ∀ (ls : List (List Char)) (c : List Char) (n : Nat),
    n ≤ (bodyAux ls c n).2.linecount := by
  intro ls
  induction ls with
  | nil => intro c n; by_cases h : (matchName c).isSome <;> simp [bodyAux, h]
  | cons c' ls' ih =>
    intro c n
    by_cases h : (matchName c).isSome
    · simp [bodyAux, h]
    · simp only [bodyAux, h, Bool.false_eq_true, if_false]
      exact le_trans (Nat.le_succ n) (ih c' (n + 1))

theorem bodyAux_measure_le : ∀ (ls : List (List Char)) (c : List Char) (n : Nat),
    measureLP (bodyAux ls c n).2 ≤ ls.length + 1 := by
  intro ls
  induction ls with
  | nil => intro c n; by_cases h : (matchName c).isSome <;> simp [bodyAux, h, measureLP]
  | cons c' ls' ih =>
    intro c n
    by_cases h : (matchName c).isSome
    · simp [bodyAux, h, measureLP]
    · simp only [bodyAux, h, Bool.false_eq_true, if_false]
      exact le_trans (ih c' (n + 1)) (by simp)

theorem bodyAux_spec : ∀ (ls : List (List Char)) (c : List Char) (n : Nat),
    (bodyAux ls c n).1 = (c :: ls).takeWhile (fun l => (matchName l).isNone) ∧
    (bodyAux ls c n).2.line =
      ((c :: ls).dropWhile (fun l => (matchName l).isNone)).head? := by
  intro ls
  induction ls with
  | nil =>
    intro c n
    by_cases h : (matchName c).isSome
    · simp [bodyAux, h, List.takeWhile, List.dropWhile, Option.isNone]
      cases hm : matchName c <;> simp [hm] at h ⊢
    · simp [bodyAux, h, List.takeWhile, List.dropWhile, Option.isNone]
      cases hm : matchName c <;> simp [hm] at h ⊢
  | cons c' ls' ih =>
    intro c n
    by_cases h : (matchName c).isSome
    · simp [bodyAux, h, List.takeWhile, List.dropWhile, Option.isNone]
      cases hm : matchName c <;> simp [hm] at h ⊢
    · simp only [bodyAux, h, Bool.false_eq_true, if_false]
      have hnone : (matchName c).isNone = true := by
        cases hm : matchName c <;> simp [hm] at h ⊢
      constructor
      · simp [List.takeWhile, hnone, (ih c' (n + 1)).1]
      · simp [List.dropWhile, hnone, (ih c' (n + 1)).2]

theorem parseBody_count_lines (p : LineParser) :
    (parseBody p).2.linecount + (parseBody p).2.lines.length =
      p.linecount + p.lines.length := by
  cases hl : p.line with
  | none => simp [parseBody, hl]
  | some c => simp [parseBody, hl, bodyAux_count_lines]

theorem parseBody_count_ge (p : LineParser) : p.linecount ≤ (parseBody p).2.linecount := by
  cases hl : p.line with
  | none => simp [parseBody, hl]
  | some c => simp [parseBody, hl, bodyAux_count_ge]

theorem parseBody_measure_le (p : LineParser) : measureLP (parseBody p).2 ≤ measureLP p := by
  cases hl : p.line with
  | none => simp [parseBody, hl]
  | some c =>
    simp only [parseBody, hl]
    calc measureLP (bodyAux p.lines c p.linecount).2 ≤ p.lines.length + 1 :=
          bodyAux_measure_le p.lines c p.linecount
      _ ≤ measureLP p := by simp [measureLP, hl]

/-! ### Lemmas about parse_query -/

theorem parse_query_error_inv {p0 : LineParser} {e : ParseError}
    (h : parse_query p0 = .error e) :
    p0.linecount ≤ e.lineOf ∧ e.lineOf ≤ p0.linecount + p0.lines.length := by
  unfold parse_query at h
  dsimp only [] at h
  have hsg := skip_whitespace_count_ge p0
  have hsl := skip_whitespace_count_lines p0
  split at h
  · rename_i hl
    injection h with h
    subst h
    simp only [ParseError.lineOf]
    omega
  · rename_i l hl
    split at h
    · rename_i hm
      injection h with h
      subst h
      simp only [ParseError.lineOf]
      omega
    · rename_i g hm
      have hng := next_count_ge p0.skip_whitespace
      have hnl := next_count_lines p0.skip_whitespace
      have hsg2 := skip_whitespace_count_ge p0.skip_whitespace.next
      have hsl2 := skip_whitespace_count_lines p0.skip_whitespace.next
      split at h
      · rename_i hl1
        injection h with h
        subst h
        simp only [ParseError.lineOf]
        omega
      · rename_i l1 hl1
        have hdg := parseDoc_count_ge p0.skip_whitespace.next.skip_whitespace
        have hdl := parseDoc_count_lines p0.skip_whitespace.next.skip_whitespace
        have hsg3 :=
          skip_whitespace_count_ge (parseDoc p0.skip_whitespace.next.skip_whitespace).2
        have hsl3 :=
          skip_whitespace_count_lines (parseDoc p0.skip_whitespace.next.skip_whitespace).2
        split at h
        · rename_i hl3
          injection h with h
          subst h
          simp only [ParseError.lineOf]
          omega
        · rename_i bl hl3
          split at h
          · injection h with h
            subst h
            simp only [ParseError.lineOf]
            omega
          · cases h

theorem parse_query_ok_inv {p0 : LineParser} {q : Query} {p1 : LineParser}
    (h : parse_query p0 = .ok (q, p1)) :
    ∃ l g ls bl n,
      (p0.skip_whitespace).line = some l ∧
      matchName l = some g ∧
      q.name = (if decide (g.getLast? = some '!') = true then g.dropLast else g).asString ∧
      q.statement = decide (g.getLast? = some '!') ∧
      isBlankL bl = false ∧ matchName bl = none ∧
      q.body = joinLines (bodyAux ls bl n).1 ∧
      p1 = (bodyAux ls bl n).2 := by
  unfold parse_query at h
  dsimp only [] at h
  split at h
  · cases h
  · rename_i l hl
    split at h
    · cases h
    · rename_i g hm
      split at h
      · cases h
      · rename_i l1 hl1
        split at h
        · cases h
        · rename_i bl hl3
          split at h
          · cases h
          · rename_i hns
            injection h with h
            injection h with hq hp
            have hblank : isBlankL bl = false :=
              skip_whitespace_line_not_blank
                (parseDoc p0.skip_whitespace.next.skip_whitespace).2 bl hl3
            have hnone : matchName bl = none := by
              cases hmn : matchName bl
              · rfl
              · rw [hmn] at hns; simp at hns
            refine ⟨l, g,
              ((parseDoc p0.skip_whitespace.next.skip_whitespace).2.skip_whitespace).lines, bl,
              ((parseDoc p0.skip_whitespace.next.skip_whitespace).2.skip_whitespace).linecount,
              hl, hm, ?_, ?_, hblank, hnone, ?_, ?_⟩
            · rw [← hq]
            · rw [← hq]
            · rw [← hq]
              simp [parseBody, hl3]
            · rw [← hp]
              simp [parseBody, hl3]

theorem parse_query_ok_counts {p0 : LineParser} {q : Query} {p1 : LineParser}
    (h : parse_query p0 = .ok (q, p1)) :
    measureLP p1 < measureLP p0 ∧
    p1.linecount + p1.lines.length = p0.linecount + p0.lines.length ∧
    p0.linecount ≤ p1.linecount := by
  unfold parse_query at h
  dsimp only [] at h
  split at h
  · cases h
  · rename_i l hl
    split at h
    · cases h
    · rename_i g hm
      split at h
      · cases h
      · rename_i l1 hl1
        split at h
        · cases h
        · rename_i bl hl3
          split at h
          · cases h
          · rename_i hns
            injection h with h
            injection h with hq hp
            have hsg := skip_whitespace_count_ge p0
            have hsl := skip_whitespace_count_lines p0
            have hsm := skip_whitespace_measure_le p0
            have hng := next_count_ge p0.skip_whitespace
            have hnl := next_count_lines p0.skip_whitespace
            have hnm : measureLP p0.skip_whitespace.next < measureLP p0.skip_whitespace :=
              next_measure_lt p0.skip_whitespace (by simp [hl])
            have hsg2 := skip_whitespace_count_ge p0.skip_whitespace.next
            have hsl2 := skip_whitespace_count_lines p0.skip_whitespace.next
            have hsm2 := skip_whitespace_measure_le p0.skip_whitespace.next
            have hdg := parseDoc_count_ge p0.skip_whitespace.next.skip_whitespace
            have hdl := parseDoc_count_lines p0.skip_whitespace.next.skip_whitespace
            have hdm := parseDoc_measure_le p0.skip_whitespace.next.skip_whitespace
            have hsg3 :=
              skip_whitespace_count_ge (parseDoc p0.skip_whitespace.next.skip_whitespace).2
            have hsl3 :=
              skip_whitespace_count_lines (parseDoc p0.skip_whitespace.next.skip_whitespace).2
            have hsm3 :=
              skip_whitespace_measure_le (parseDoc p0.skip_whitespace.next.skip_whitespace).2
            have hbg := parseBody_count_ge
              (parseDoc p0.skip_whitespace.next.skip_whitespace).2.skip_whitespace
            have hbl := parseBody_count_lines
              (parseDoc p0.skip_whitespace.next.skip_whitespace).2.skip_whitespace
            have hbm := parseBody_measure_le
              (parseDoc p0.skip_whitespace.next.skip_whitespace).2.skip_whitespace
            rw [← hp]
            omega

/-! ### Lemmas about the top-level loop -/

theorem parseLoop_fuel_congr : ∀ (f1 f2 : Nat) (p : LineParser) (acc : List (String × Query)),
    measureLP p < f1 → measureLP p < f2 → parseLoop f1 p acc = parseLoop f2 p acc := by
  intro f1
  induction f1 with
  | zero => intro f2 p acc h1 h2; omega
  | succ a ih =>
    intro f2 p acc h1 h2
    cases f2 with
    | zero => omega
    | succ b =>
      simp only [parseLoop]
      cases hl : p.line with
      | none => rfl
      | some l =>
        cases hq : parse_query p with
        | error e => simp [hq]
        | ok qp =>
          obtain ⟨q, p'⟩ := qp
          simp only [hq]
          have hc := (parse_query_ok_counts hq).1
          have hm := skip_whitespace_measure_le p'
          exact ih b p'.skip_whitespace (upsert acc q.name q) (by omega) (by omega)

theorem parseLoop_error_inv : ∀ (f : Nat) (p : LineParser) (acc : List (String × Query))
    (e : ParseError), parseLoop f p acc = .error e →
    p.linecount ≤ e.lineOf ∧ e.lineOf ≤ p.linecount + p.lines.length := by
  intro f
  induction f with
  | zero => intro p acc e h; cases h
  | succ a ih =>
    intro p acc e h
    simp only [parseLoop] at h
    split at h
    · cases h
    · rename_i l hl
      split at h
      · rename_i e' hq
        injection h with h
        subst h
        exact parse_query_error_inv hq
    -- fallthrough: the ok branch
      · rename_i q p' hq
        have hc := parse_query_ok_counts hq
        have h1 := skip_whitespace_count_ge p'
        have h2 := skip_whitespace_count_lines p'
        obtain ⟨ha, hb⟩ := ih _ _ _ h
        omega

theorem mem_upsert : ∀ (m : List (String × Query)) (k : String) (v : Query)
    (x : String × Query), x ∈ upsert m k v → x ∈ m ∨ x.2 = v := by
  intro m
  induction m with
  | nil =>
    intro k v x hx
    simp [upsert] at hx
    simp [hx]
  | cons kv rest ih =>
    obtain ⟨k', v'⟩ := kv
    intro k v x hx
    by_cases hk : k' = k
    · simp only [upsert, if_pos hk, List.mem_cons] at hx
      rcases hx with hx | hx
      · right; simp [hx]
      · left; exact List.mem_cons_of_mem _ hx
    · simp only [upsert, if_neg hk, List.mem_cons] at hx
      rcases hx with hx | hx
      · left; simp [hx]
      · rcases ih k v x hx with hm | hv
        · left; exact List.mem_cons_of_mem _ hm
        · right; exact hv

theorem upsert_keys : ∀ (m : List (String × Query)) (k : String) (v : Query),
    (upsert m k v).map Prod.fst =
      if k ∈ m.map Prod.fst then m.map Prod.fst else m.map Prod.fst ++ [k] := by
  intro m
  induction m with
  | nil => intro k v; simp [upsert]
  | cons kv rest ih =>
    obtain ⟨k', v'⟩ := kv
    intro k v
    by_cases hk : k' = k
    · simp [upsert, hk]
    · have hk' : ¬k = k' := fun hcon => hk hcon.symm
      simp only [upsert, if_neg hk, List.map_cons, List.mem_cons]
      rw [ih k v]
      by_cases hmem : k ∈ rest.map Prod.fst
      · simp [hmem, hk']
      · simp [hmem, hk']

theorem upsert_nodup (m : List (String × Query)) (k : String) (v : Query)
    (h : (m.map Prod.fst).Nodup) : ((upsert m k v).map Prod.fst).Nodup := by
  rw [upsert_keys]
  by_cases hk : k ∈ m.map Prod.fst
  · simpa [hk] using h
  · simp [hk, List.nodup_append, h]

theorem joinLines_ne_empty {c : List Char} {t : List (List Char)} (h : c ≠ []) :
    joinLines (c :: t) ≠ "" := by
  unfold joinLines
  intro he
  have hd : List.intercalate ['\n'] (c :: t) = [] := by
    have hdata := congrArg String.data he
    simpa [List.asString] using hdata
  cases t with
  | nil => simp [List.intercalate] at hd; exact h hd
  | cons b t' => simp [List.intercalate, List.intersperse] at hd

theorem parse_query_body_ne {p0 : LineParser} {q : Query} {p1 : LineParser}
    (h : parse_query p0 = .ok (q, p1)) : q.body ≠ "" := by
  obtain ⟨l, g, ls, bl, n, _, _, _, _, hblank, hnone, hbody, _⟩ := parse_query_ok_inv h
  have hspec := (bodyAux_spec ls bl n).1
  have hcons : ((bl :: ls).takeWhile fun l => (matchName l).isNone) =
      bl :: (ls.takeWhile fun l => (matchName l).isNone) := by
    rw [List.takeWhile_cons]
    simp [hnone]
  rw [hbody, hspec, hcons]
  apply joinLines_ne_empty
  intro hbl
  rw [hbl] at hblank
  simp [isBlankL] at hblank

theorem parseLoop_ok_body_ne : ∀ (f : Nat) (p : LineParser) (acc m : List (String × Query)),
    (∀ x ∈ acc, x.2.body ≠ "") → parseLoop f p acc = .ok m → ∀ x ∈ m, x.2.body ≠ "" := by
  intro f
  induction f with
  | zero =>
    intro p acc m hacc h
    injection h with h
    subst h
    exact hacc
  | succ a ih =>
    intro p acc m hacc h
    simp only [parseLoop] at h
    split at h
    · injection h with h
      subst h
      exact hacc
    · rename_i l hl
      split at h
      · cases h
      · rename_i q p' hq
        refine ih _ _ _ ?_ h
        intro x hx
        rcases mem_upsert _ _ _ _ hx with hm | hv
        · exact hacc x hm
        · rw [hv]
          exact parse_query_body_ne hq

theorem parseLoop_ok_nodup : ∀ (f : Nat) (p : LineParser) (acc m : List (String × Query)),
    (acc.map Prod.fst).Nodup → parseLoop f p acc = .ok m → (m.map Prod.fst).Nodup := by
  intro f
  induction f with
  | zero =>
    intro p acc m hacc h
    injection h with h
    subst h
    exact hacc
  | succ a ih =>
    intro p acc m hacc h
    simp only [parseLoop] at h
    split at h
    · injection h with h
      subst h
      exact hacc
    · rename_i l hl
      split at h
      · cases h
      · rename_i q p' hq
        exact ih _ _ _ (upsert_nodup _ _ _ hacc) h

/-! ### Initial state and further closed forms -/

theorem init_eq {src : String} {l : List Char} {ls : List (List Char)}
    (h : splitlines src = l :: ls) :
    LineParser.init src = ⟨ls, some l, 1⟩ := by
  simp [LineParser.init, LineParser.next, h]

theorem init_eq_nil {src : String} (h : splitlines src = []) :
    LineParser.init src = ⟨[], none, 0⟩ := by
  simp [LineParser.init, LineParser.next, h]

theorem skipAux_not_blank {c : List Char} (hb : isBlankL c = false)
    (ls : List (List Char)) (n : Nat) : skipAux ls c n = ⟨ls, some c, n⟩ := by
  cases ls <;> simp [skipAux, hb]

theorem skip_whitespace_not_blank {p : LineParser} {c : List Char}
    (h : p.line = some c) (hb : isBlankL c = false) : p.skip_whitespace = p := by
  obtain ⟨ls, li, n⟩ := p
  simp only at h
  subst h
  simp [LineParser.skip_whitespace, skipAux_not_blank hb]

theorem skipAux_all_blank : ∀ (ls : List (List Char)) (c : List Char) (n : Nat),
    (∀ x ∈ c :: ls, isBlankL x = true) →
    skipAux ls c n = ⟨[], none, n + ls.length⟩ := by
  intro ls
  induction ls with
  | nil =>
    intro c n hall
    simp [skipAux, hall c (by simp)]
  | cons c' ls' ih =>
    intro c n hall
    have hc : isBlankL c = true := hall c (by simp)
    simp only [skipAux, hc, if_pos]
    rw [ih c' (n + 1) (fun x hx => hall x (by simp at hx; rcases hx with hx | hx <;> simp [hx]))]
    simp
    omega

theorem next_line_none_lines {p : LineParser} (h : (LineParser.next p).line = none) :
    (LineParser.next p).lines = [] := by
  cases hl : p.lines <;> simp [LineParser.next, hl] at h ⊢

theorem next_of_exhausted {p : LineParser} (hline : p.line = none) (hlines : p.lines = []) :
    LineParser.next p = p := by
  obtain ⟨ls, li, n⟩ := p
  simp only at hline hlines
  subst hline
  subst hlines
  simp [LineParser.next]

theorem iterate_init_is_next (src : String) (n : Nat) :
    ∃ p', Nat.iterate LineParser.next n (LineParser.init src) = LineParser.next p' := by
  cases n with
  | zero => exact ⟨_, rfl⟩
  | succ k =>
    rw [Function.iterate_succ_apply']
    exact ⟨_, rfl⟩

theorem iterate_init_count_lines (src : String) (n : Nat) :
    (Nat.iterate LineParser.next n (LineParser.init src)).linecount +
      (Nat.iterate LineParser.next n (LineParser.init src)).lines.length =
      (splitlines src).length := by
  induction n with
  | zero =>
    simp only [Function.iterate_zero, id]
    cases hsp : splitlines src with
    | nil => simp [init_eq_nil hsp]
    | cons l ls => simp [init_eq hsp]; omega
  | succ k ih =>
    rw [Function.iterate_succ_apply']
    rw [next_count_lines]
    exact ih

theorem bang_facts {id bang : List Char} (hne : id ≠ [])
    (hall : id.all isIdentChar = true) (hb : bang = [] ∨ bang = ['!']) :
    (decide ((id ++ bang).getLast? = some '!') = true ↔ bang = ['!']) ∧
    (if decide ((id ++ bang).getLast? = some '!') = true
      then (id ++ bang).dropLast else id ++ bang) = id := by
  rcases hb with hb | hb
  · subst hb
    have hlast : id.getLast? = some (id.getLast hne) := List.getLast?_eq_getLast id hne
    have hmem : id.getLast hne ∈ id := List.getLast_mem hne
    have hident : isIdentChar (id.getLast hne) = true := List.all_eq_true.mp hall _ hmem
    have hneq : id.getLast? ≠ some '!' := by
      rw [hlast]
      intro hcon
      injection hcon with hcon
      rw [hcon] at hident
      simp [isIdentChar] at hident
    have hdec : decide (id.getLast? = some '!') = false := decide_eq_false hneq
    constructor
    · rw [List.append_nil, hdec]
      simp
    · rw [List.append_nil, hdec]
      simp
  · subst hb
    have hlast : (id ++ ['!']).getLast? = some '!' := List.getLast?_concat id
    have hdec : decide ((id ++ ['!']).getLast? = some '!') = true := by
      rw [hlast]; simp
    refine ⟨by simp [hdec], ?_⟩
    rw [hdec]
    simp [List.dropLast_concat]

theorem parseLoop_succ (f : Nat) (p : LineParser) (acc : List (String × Query)) :
    parseLoop (f + 1) p acc =
      match p.line with
      | none => .ok acc
      | some _ =>
        match parse_query p with
        | .error e => .error e
        | .ok (q, p') => parseLoop f p'.skip_whitespace (upsert acc q.name q) := rfl

theorem parseLoop_step_error {f : Nat} {p : LineParser} {acc : List (String × Query)}
    {e : ParseError} (hl : p.line.isSome = true) (hq : parse_query p = .error e) :
    parseLoop (f + 1) p acc = .error e := by
  rw [parseLoop_succ]
  cases hline : p.line with
  | none => rw [hline] at hl; cases hl
  | some l => simp [hq]

/-! ### The claims -/

/-- Claim C1, counterexample: the source consisting of one blank line is
all-blank, yet `parse_queries` raises a ParseError instead of returning the
empty mapping. -/
theorem c1_counterexample :
    (splitlines " ").all isBlankL = true ∧
    parse_queries " " = .error (.expectingName 1) := by decide

/-- Claim C1, amended: the empty source parses to the empty mapping, but a
nonempty source consisting only of blank lines raises a ParseError
(expecting a name line) whose line number is the number of lines. -/
theorem c1_amended :
    parse_queries "" = .ok [] ∧
    ∀ (src : String) (l : List Char) (ls : List (List Char)),
      splitlines src = l :: ls → (∀ x ∈ l :: ls, isBlankL x = true) →
      parse_queries src = .error (.expectingName (ls.length + 1)) := by
  refine ⟨by decide, ?_⟩
  intro src l ls hsp hall
  unfold parse_queries
  dsimp only []
  rw [init_eq hsp]
  have hq : parse_query ⟨ls, some l, 1⟩ = .error (.expectingName (ls.length + 1)) := by
    unfold parse_query
    dsimp only []
    have hskip : LineParser.skip_whitespace ⟨ls, some l, 1⟩ = ⟨[], none, 1 + ls.length⟩ := by
      rw [show LineParser.skip_whitespace ⟨ls, some l, 1⟩ = skipAux ls l 1 from rfl]
      exact skipAux_all_blank ls l 1 hall
    rw [hskip]
    have hcomm : 1 + ls.length = ls.length + 1 := Nat.add_comm 1 ls.length
    rw [hcomm]
  exact parseLoop_step_error (by simp) hq

/-- Claim C3, counterexample: the input consisting of a name line alone
raises the third error form, "Expecting documentation or query body for
query q", which is neither of the two message forms named by the claim. -/
theorem c3_counterexample :
    parse_queries "-- name: q" = .error (.expectingDocOrBody 1 "q") ∧
    (ParseError.expectingDocOrBody 1 "q").render =
      "1: Expecting documentation or query body for query q" ∧
    (ParseError.expectingDocOrBody 1 "q").render ≠
      "1: Expecting '-- name: <query-name>'" ∧
    (ParseError.expectingDocOrBody 1 "q").render ≠
      "1: Expecting query body for query q" := by decide

/-- Claim C3, amended: every parse failure is a ParseError carrying a
1-based line number between 1 and the number of source lines, and its
rendered message is one of exactly three forms: the name-line form, the
documentation-or-body form, or the missing-body form. -/
theorem c3_amended : ∀ (src : String) (e : ParseError),
    parse_queries src = .error e →
    (1 ≤ e.lineOf ∧ e.lineOf ≤ (splitlines src).length) ∧
    (e.render = toString e.lineOf ++ ": Expecting '-- name: <query-name>'" ∨
     (∃ nm, e.render =
        toString e.lineOf ++ ": Expecting documentation or query body for query " ++ nm) ∨
     (∃ nm, e.render = toString e.lineOf ++ ": Expecting query body for query " ++ nm)) := by
  intro src e h
  unfold parse_queries at h
  dsimp only [] at h
  constructor
  · cases hsp : splitlines src with
    | nil =>
      rw [init_eq_nil hsp] at h
      have hok : parseLoop (((⟨[], none, 0⟩ : LineParser)).lines.length + 2)
          (⟨[], none, 0⟩ : LineParser) [] = .ok [] := rfl
      rw [hok] at h
      cases h
    | cons l ls =>
      have hbounds := parseLoop_error_inv _ _ _ _ h
      rw [init_eq hsp] at hbounds
      dsimp only [] at hbounds
      simp only [List.length_cons]
      omega
  · cases e with
    | expectingName n =>
      left
      simp [ParseError.render, ParseError.lineOf]
    | expectingDocOrBody n nm =>
      right; left
      exact ⟨nm, by simp [ParseError.render, ParseError.lineOf]⟩
    | expectingBody n nm =>
      right; right
      exact ⟨nm, by simp [ParseError.render, ParseError.lineOf]⟩

/-- Claim C5: a source whose first line is non-blank and not a name line
fails with a ParseError on line 1; and the cursor's counter is incremented
exactly once per successful advance (and not on a failed one). -/
theorem c5_malformed_first_line :
    (∀ (src : String) (l : List Char) (ls : List (List Char)),
      splitlines src = l :: ls → isBlankL l = false → matchName l = none →
      parse_queries src = .error (.expectingName 1)) ∧
    (∀ p : LineParser,
      (p.lines ≠ [] → p.next.linecount = p.linecount + 1) ∧
      (p.lines = [] → p.next.linecount = p.linecount)) := by
  constructor
  · intro src l ls hsp hb hm
    unfold parse_queries
    dsimp only []
    rw [init_eq hsp]
    have hq : parse_query ⟨ls, some l, 1⟩ = .error (.expectingName 1) := by
      unfold parse_query
      dsimp only []
      rw [skip_whitespace_not_blank (p := ⟨ls, some l, 1⟩) rfl hb]
      dsimp only []
      rw [hm]
    exact parseLoop_step_error (by simp) hq
  · intro p
    constructor
    · intro hne
      cases hl : p.lines with
      | nil => exact absurd hl hne
      | cons a as => simp [LineParser.next, hl]
    · intro hnil
      simp [LineParser.next, hnil]

/-- Claim C10: advancing the cursor at end of input is a no-op (the line
stays absent and the counter is unchanged), and however many advances are
performed the counter never exceeds the number of source lines. -/
theorem c10_advance_at_end :
    (∀ (src : String) (n : Nat),
      (Nat.iterate LineParser.next n (LineParser.init src)).line = none →
      LineParser.next (Nat.iterate LineParser.next n (LineParser.init src)) =
        Nat.iterate LineParser.next n (LineParser.init src)) ∧
    (∀ (src : String) (n : Nat),
      (Nat.iterate LineParser.next n (LineParser.init src)).linecount ≤
        (splitlines src).length) := by
  constructor
  · intro src n hline
    obtain ⟨p', hp'⟩ := iterate_init_is_next src n
    rw [hp'] at hline ⊢
    exact next_of_exhausted hline (next_line_none_lines hline)
  · intro src n
    have h := iterate_init_count_lines src n
    omega

/-- Claim C2, counterexample: on the doc line `--  hi` (two spaces after
the marker) the parser strips the whole `\s*--\s*` prefix and stores `hi`,
whereas stripping the marker plus one optional whitespace character (the
claim, embodied by `specStripDocLine`) would keep ` hi`. -/
theorem c2_counterexample :
    matchDoc ("--  hi".toList) = some ("hi".toList) ∧
    specStripDocLine ("--  hi".toList) = (" hi".toList) ∧
    ("hi".toList ≠ " hi".toList) ∧
    parse_queries "-- name: q\n--  hi\nSELECT 1" =
      .ok [("q", ⟨"q", false, "hi", "SELECT 1"⟩)] := by decide

/-- Claim C2, amended: each kept documentation line is the source line with
its whole matched prefix removed - leading whitespace, the `--` marker and
ALL immediately following whitespace - so the remainder never starts with a
whitespace character; the doc field joins these remainders with newlines
and is empty when there are no doc lines. -/
theorem c2_amended :
    (∀ (l r : List Char), matchDoc l = some r →
      ∃ w1 w2, isBlankL w1 = true ∧ isBlankL w2 = true ∧
        l = w1 ++ ['-', '-'] ++ w2 ++ r ∧
        (∀ c rs, r = c :: rs → pyIsSpace c = false)) ∧
    parse_queries "-- name: q\n-- hello\nSELECT 1" =
      .ok [("q", ⟨"q", false, "hello", "SELECT 1"⟩)] ∧
    parse_queries "-- name: t\nSELECT 2" = .ok [("t", ⟨"t", false, "", "SELECT 2"⟩)] :=
  ⟨fun _ _ h => matchDoc_some h, by decide, by decide⟩

/-- Claim C4: a query block with zero body lines is a ParseError that
carries the query's name, and consequently every Query in a successful
parse result has a non-empty body. -/
theorem c4_missing_body :
    parse_queries "-- name: q\n-- only doc, no body" = .error (.expectingBody 2 "q") ∧
    ∀ (src : String) (m : List (String × Query)),
      parse_queries src = .ok m → ∀ x ∈ m, x.2.body ≠ "" := by
  refine ⟨by decide, ?_⟩
  intro src m h x hx
  unfold parse_queries at h
  dsimp only [] at h
  exact parseLoop_ok_body_ne _ _ _ _ (by simp) h x hx

/-- Claim C6: names in the result mapping are unique (a later duplicate
overwrites in place), and the spec's duplicate example keeps exactly one
entry for `a`, holding the record of the last block (body `Y`). -/
theorem c6_duplicate_names :
    (∀ (src : String) (m : List (String × Query)),
      parse_queries src = .ok m → (m.map Prod.fst).Nodup) ∧
    parse_queries "-- name: a\nX\n\n-- name: a\nY\n" =
      .ok [("a", ⟨"a", false, "", "Y"⟩)] := by
  refine ⟨?_, by decide⟩
  intro src m h
  unfold parse_queries at h
  dsimp only [] at h
  exact parseLoop_ok_nodup _ _ _ _ (by simp) h

/-- Claim C7: a matched name line decomposes as whitespace, `--`,
whitespace, `name:`, whitespace, a non-empty identifier, an optional `!`
and trailing whitespace; the statement flag test used by `parse_query` is
true exactly when the `!` suffix is present, and the stored name is the
identifier with the `!` stripped; the spec's `kill!` example parses
accordingly. -/
theorem c7_statement_flag :
    (∀ (l g : List Char), matchName l = some g →
      ∃ w1 w2 w3 w4 id bang,
        l = w1 ++ ['-', '-'] ++ w2 ++ ['n', 'a', 'm', 'e', ':'] ++ w3 ++
          id ++ bang ++ w4 ∧
        isBlankL w1 = true ∧ isBlankL w2 = true ∧ isBlankL w3 = true ∧
        isBlankL w4 = true ∧
        id ≠ [] ∧ id.all isIdentChar = true ∧ (bang = [] ∨ bang = ['!']) ∧
        g = id ++ bang ∧
        (decide (g.getLast? = some '!') = true ↔ bang = ['!']) ∧
        (if decide (g.getLast? = some '!') = true then g.dropLast else g) = id) ∧
    (∀ (p0 : LineParser) (q : Query) (p1 : LineParser),
      parse_query p0 = .ok (q, p1) →
      ∃ l g, (p0.skip_whitespace).line = some l ∧ matchName l = some g ∧
        q.statement = decide (g.getLast? = some '!') ∧
        q.name = (if decide (g.getLast? = some '!') = true
          then g.dropLast else g).asString) ∧
    parse_queries "-- name: kill!\nDELETE FROM t" =
      .ok [("kill", ⟨"kill", true, "", "DELETE FROM t"⟩)] := by
  refine ⟨?_, ?_, by decide⟩
  · intro l g h
    obtain ⟨w1, w2, w3, w4, id, bang, hdec, h1, h2, h3, h4, hne, hall, hb, hg⟩ :=
      matchName_some h
    obtain ⟨hiff, hif⟩ := bang_facts hne hall hb
    subst hg
    exact ⟨w1, w2, w3, w4, id, bang, hdec, h1, h2, h3, h4, hne, hall, hb, rfl, hiff, hif⟩
  · intro p0 q p1 h
    obtain ⟨l, g, ls, bl, n, hl, hm, hname, hstmt, _, _, _, _⟩ := parse_query_ok_inv h
    exact ⟨l, g, hl, hm, hstmt, hname⟩

/-- Claim C8: every name line also matches the doc-line pattern, so during
doc collection a second name line is swallowed as documentation; in the
concrete example `-- name: b` right after the block's name line becomes the
doc text `name: b` and does not start a new query. -/
theorem c8_doc_swallows_name_lines :
    (∀ l : List Char, (matchName l).isSome = true → (matchDoc l).isSome = true) ∧
    parse_queries "-- name: a\n-- name: b\nBODY" =
      .ok [("a", ⟨"a", false, "name: b", "BODY"⟩)] :=
  ⟨fun _ h => matchName_isSome_matchDoc h, by decide⟩

/-- Claim C9: body collection takes lines verbatim while they are neither
end of input nor name lines (`takeWhile` of the non-name predicate, blank
lines included), stops exactly at the first name line or end of input, and
the stored body is those very lines joined with newlines. -/
theorem c9_body_collection :
    (∀ (ls : List (List Char)) (c : List Char) (n : Nat),
      (bodyAux ls c n).1 = (c :: ls).takeWhile (fun l => (matchName l).isNone) ∧
      (bodyAux ls c n).2.line =
        ((c :: ls).dropWhile (fun l => (matchName l).isNone)).head?) ∧
    (∀ (p0 : LineParser) (q : Query) (p1 : LineParser),
      parse_query p0 = .ok (q, p1) →
      ∃ (c : List Char) (ls : List (List Char)),
        isBlankL c = false ∧ matchName c = none ∧
        q.body = joinLines ((c :: ls).takeWhile fun l => (matchName l).isNone) ∧
        p1.line = ((c :: ls).dropWhile fun l => (matchName l).isNone).head?) := by
  refine ⟨bodyAux_spec, ?_⟩
  intro p0 q p1 h
  obtain ⟨l, g, ls, bl, n, _, _, _, _, hblank, hnone, hbody, hp1⟩ := parse_query_ok_inv h
  refine ⟨bl, ls, hblank, hnone, ?_, ?_⟩
  · rw [hbody, (bodyAux_spec ls bl n).1]
  · rw [hp1, (bodyAux_spec ls bl n).2]

/-! ### Witnesses: the claim theorems applied at concrete inputs -/

theorem c1_witness : parse_queries " \n " = .error (.expectingName 2) :=
  c1_amended.2 " \n " [' '] [[' ']] (by decide) (by decide)

theorem c2_witness :
    ∃ w1 w2, isBlankL w1 = true ∧ isBlankL w2 = true ∧
      ("-- x".toList) = w1 ++ ['-', '-'] ++ w2 ++ ("x".toList) ∧
      (∀ c rs, ("x".toList) = c :: rs → pyIsSpace c = false) :=
  c2_amended.1 ("-- x".toList) ("x".toList) (by decide)

theorem c3_witness :
    1 ≤ (ParseError.expectingName 1).lineOf ∧
    (ParseError.expectingName 1).lineOf ≤ (splitlines "SELECT 1").length :=
  (c3_amended "SELECT 1" (.expectingName 1) (by decide)).1

theorem c4_witness :
    (("w", (⟨"w", false, "", "BODY"⟩ : Query)) : String × Query).2.body ≠ "" :=
  c4_missing_body.2 "-- name: w\nBODY" [("w", ⟨"w", false, "", "BODY"⟩)] (by decide)
    ("w", ⟨"w", false, "", "BODY"⟩) (by decide)

theorem c5_witness : parse_queries "SELECT 1" = .error (.expectingName 1) :=
  c5_malformed_first_line.1 "SELECT 1" ("SELECT 1".toList) [] (by decide) (by decide)
    (by decide)

theorem c6_witness :
    (([("a", (⟨"a", false, "", "Y"⟩ : Query))].map Prod.fst).Nodup) :=
  c6_duplicate_names.1 "-- name: a\nX\n\n-- name: a\nY\n"
    [("a", ⟨"a", false, "", "Y"⟩)] (by decide)

theorem c7_witness :
    ∃ l g,
      ((LineParser.init "-- name: kill!\nDELETE FROM t").skip_whitespace).line = some l ∧
      matchName l = some g ∧
      (⟨"kill", true, "", "DELETE FROM t"⟩ : Query).statement =
        decide (g.getLast? = some '!') ∧
      (⟨"kill", true, "", "DELETE FROM t"⟩ : Query).name =
        (if decide (g.getLast? = some '!') = true then g.dropLast else g).asString :=
  c7_statement_flag.2.1 (LineParser.init "-- name: kill!\nDELETE FROM t")
    ⟨"kill", true, "", "DELETE FROM t"⟩ ⟨[], none, 2⟩ (by decide)

theorem c8_witness : (matchDoc ("-- name: b".toList)).isSome = true :=
  c8_doc_swallows_name_lines.1 ("-- name: b".toList) (by decide)

theorem c9_witness :
    ∃ c ls, isBlankL c = false ∧ matchName c = none ∧
      (⟨"w", false, "", "A\n\nB"⟩ : Query).body =
        joinLines ((c :: ls).takeWhile fun l => (matchName l).isNone) ∧
      ((⟨[], none, 4⟩ : LineParser)).line =
        ((c :: ls).dropWhile fun l => (matchName l).isNone).head? :=
  c9_body_collection.2 (LineParser.init "-- name: w\nA\n\nB")
    ⟨"w", false, "", "A\n\nB"⟩ ⟨[], none, 4⟩ (by decide)

theorem c10_witness :
    LineParser.next (Nat.iterate LineParser.next 0 (LineParser.init "")) =
      Nat.iterate LineParser.next 0 (LineParser.init "") :=
  c10_advance_at_end.1 "" 0 (by decide)
